import Mathlib

/-!
Verification development for the polytera trade-watcher package.

The TypeScript sources are shallowly embedded in Lean 4:

* JS numbers are modelled as rationals; the helper roundTo(value, 6)
  (Math.round(value * 10^6) / 10^6) becomes roundTo6 below, with JS
  Math.round(x) modelled as the floor of x + 1/2.
* bigint fields are modelled as integers.
* JS Map objects (insertion-ordered, set-in-place on existing keys,
  delete + set moves a key to the end) are modelled as association lists.
* Fallible network calls are modelled as Option-valued oracle arguments:
  none stands for "the fetch failed or returned no rows".
-/

namespace Polytera

/-- Model of the roundTo(value, 6) helper from trade-decoder.ts and
position-tracker.ts: Math.round(value * 1e6) / 1e6, with JS Math.round
modelled over the rationals as the floor of x + 1/2. -/
def roundTo6 (value : ℚ) : ℚ :=
  (((value * 1000000 + 1 / 2).floor : ℤ) : ℚ) / 1000000

/-- The computable Rat.floor used in roundTo6 agrees with the floor of the
order structure, which the order lemmas below speak about. -/
theorem ratFloor_eq_intFloor (q : ℚ) : q.floor = ⌊q⌋ := by
  rw [Rat.floor_def', Rat.floor_def]

/-- Model of TradeSource from types/index.ts. -/
inductive TradeSource
  | onChain
  | clobApi
deriving DecidableEq

/-- Model of ExchangeType from types/index.ts. -/
inductive ExchangeType
  | ctf
  | negRisk
deriving DecidableEq

/-- Which side of the fill the tracked expert occupied. -/
inductive ExpertSide
  | maker
  | taker
deriving DecidableEq

/-- Trade direction of the decoded trade. -/
inductive Side
  | BUY
  | SELL
deriving DecidableEq

/-- Model of RawTradeEvent from types/index.ts.  Amount fields are bigint
in the source and are modelled as integers; logIndex is a natural. -/
structure RawTradeEvent where
  id : String
  txHash : String
  logIndex : ℕ
  blockNumber : ℤ
  blockTimestamp : ℤ
  detectedAt : ℤ
  source : TradeSource
  exchange : ExchangeType
  orderHash : String
  maker : String
  taker : String
  makerAssetId : String
  takerAssetId : String
  makerAmountFilled : ℤ
  takerAmountFilled : ℤ
  fee : ℤ
  expertSide : ExpertSide
deriving DecidableEq

/-- Model of DecodedTrade from normalizer/types.ts. -/
structure DecodedTrade where
  side : Side
  price : ℚ
  quantity : ℚ
  impliedProbability : ℚ
  outcomeTokenId : String
  usdcAmount : ℚ
deriving DecidableEq

/-- Local isMaker from decodeTrade (trade-decoder.ts). -/
def decodeIsMaker (raw : RawTradeEvent) : Bool :=
  raw.expertSide = ExpertSide.maker

/-- Local expertGivesAssetId from decodeTrade. -/
def expertGivesAssetId (raw : RawTradeEvent) : String :=
  if decodeIsMaker raw then raw.makerAssetId else raw.takerAssetId

/-- Local expertGivesAmount from decodeTrade. -/
def expertGivesAmount (raw : RawTradeEvent) : ℤ :=
  if decodeIsMaker raw then raw.makerAmountFilled else raw.takerAmountFilled

/-- Local expertReceivesAssetId from decodeTrade. -/
def expertReceivesAssetId (raw : RawTradeEvent) : String :=
  if decodeIsMaker raw then raw.takerAssetId else raw.makerAssetId

/-- Local expertReceivesAmount from decodeTrade. -/
def expertReceivesAmount (raw : RawTradeEvent) : ℤ :=
  if decodeIsMaker raw then raw.takerAmountFilled else raw.makerAmountFilled

/-- Local isBuying from decodeTrade: the expert pays USDC (asset id "0")
exactly when they are buying outcome tokens. -/
def decodeIsBuying (raw : RawTradeEvent) : Bool :=
  expertGivesAssetId raw = "0"

/-- Local usdcAmount from decodeTrade (raw, unscaled). -/
def tradeUsdcAmount (raw : RawTradeEvent) : ℤ :=
  if decodeIsBuying raw then expertGivesAmount raw else expertReceivesAmount raw

/-- Local tokenAmount from decodeTrade (raw, unscaled). -/
def tradeTokenAmount (raw : RawTradeEvent) : ℤ :=
  if decodeIsBuying raw then expertReceivesAmount raw else expertGivesAmount raw

/-- Local outcomeTokenId from decodeTrade. -/
def tradeOutcomeTokenId (raw : RawTradeEvent) : String :=
  if decodeIsBuying raw then expertReceivesAssetId raw else expertGivesAssetId raw

/-- Local price from decodeTrade: usdcHuman / tokenHuman when the token
amount is positive, else 0 (division-by-zero guard in the source).  The
locals usdcHuman and tokenHuman of the source are inlined. -/
def tradePrice (raw : RawTradeEvent) : ℚ :=
  if 0 < (tradeTokenAmount raw : ℚ) / 1000000 then
    ((tradeUsdcAmount raw : ℚ) / 1000000) / ((tradeTokenAmount raw : ℚ) / 1000000)
  else 0

/-- Model of decodeTrade from normalizer/enrichers/trade-decoder.ts.
The source's clamp(v, 0, 1) is min (max v 0) 1. -/
def decodeTrade (raw : RawTradeEvent) : DecodedTrade :=
  let price := tradePrice raw
  let impliedProbability := if decodeIsBuying raw then price else 1 - price
  { side := if decodeIsBuying raw then Side.BUY else Side.SELL
    price := roundTo6 price
    quantity := roundTo6 ((tradeTokenAmount raw : ℚ) / 1000000)
    impliedProbability := roundTo6 (min (max impliedProbability 0) 1)
    outcomeTokenId := tradeOutcomeTokenId raw
    usdcAmount := roundTo6 ((tradeUsdcAmount raw : ℚ) / 1000000) }

/-- Model of MarketPhase from normalizer/types.ts. -/
inductive MarketPhase
  | early
  | mid
  | late
  | nearResolution
deriving DecidableEq

/-- Threshold constant from market-phase.ts (milliseconds in 24 hours). -/
def NEAR_RESOLUTION_THRESHOLD : ℤ := 1 * (24 * (60 * 60 * 1000))

/-- Threshold constant from market-phase.ts (milliseconds in 7 days). -/
def LATE_THRESHOLD : ℤ := 7 * (24 * (60 * 60 * 1000))

/-- Threshold constant from market-phase.ts (milliseconds in 30 days). -/
def MID_THRESHOLD : ℤ := 30 * (24 * (60 * 60 * 1000))

/-- Model of computeMarketPhase from normalizer/enrichers/market-phase.ts.
The end date argument is the parse outcome of the source's
string-or-Date-or-null input: none is a missing (falsy) end date, some
none is a date whose parse produced NaN, and some (some endMs) is a date
parsing to the epoch-millisecond value endMs. -/
def computeMarketPhase (endDate : Option (Option ℤ)) (now : ℤ) : MarketPhase :=
  match endDate with
  | none => MarketPhase.early
  | some parsed =>
    match parsed with
    | none => MarketPhase.early
    | some endMs =>
      let remainingMs := endMs - now
      if remainingMs ≤ 0 then MarketPhase.nearResolution
      else if remainingMs < NEAR_RESOLUTION_THRESHOLD then MarketPhase.nearResolution
      else if remainingMs < LATE_THRESHOLD then MarketPhase.late
      else if remainingMs < MID_THRESHOLD then MarketPhase.mid
      else MarketPhase.early

/-- Bucket classification exactly as claim C5 words it: early when the end
date is missing or unparseable; otherwise early when at least 30 days
remain, mid when at least 7 days, late when at least 24 hours, and
near-resolution when the remaining time is below 24 hours (including zero
and negative). -/
def marketPhaseClaim (endDate : Option (Option ℤ)) (now : ℤ) : MarketPhase :=
  match endDate with
  | none => MarketPhase.early
  | some none => MarketPhase.early
  | some (some endMs) =>
    let remainingMs := endMs - now
    if 30 * 86400000 ≤ remainingMs then MarketPhase.early
    else if 7 * 86400000 ≤ remainingMs then MarketPhase.mid
    else if 86400000 ≤ remainingMs then MarketPhase.late
    else MarketPhase.nearResolution

/-- Rounding a nonnegative value to 6 decimals stays nonnegative. -/
theorem roundTo6_nonneg {q : ℚ} (h : 0 ≤ q) : 0 ≤ roundTo6 q := by
  rw [roundTo6, ratFloor_eq_intFloor]
  have hfl : (0 : ℤ) ≤ ⌊q * 1000000 + 1 / 2⌋ := by
    apply Int.le_floor.mpr
    push_cast
    nlinarith
  have : (0 : ℚ) ≤ ((⌊q * 1000000 + 1 / 2⌋ : ℤ) : ℚ) := by exact_mod_cast hfl
  positivity

/-- Rounding a value at most 1 to 6 decimals stays at most 1. -/
theorem roundTo6_le_one {q : ℚ} (h : q ≤ 1) : roundTo6 q ≤ 1 := by
  rw [roundTo6, ratFloor_eq_intFloor]
  have hfl : ⌊q * 1000000 + 1 / 2⌋ ≤ 1000000 := by
    calc ⌊q * 1000000 + 1 / 2⌋ ≤ ⌊(1000000 : ℚ) + 1 / 2⌋ :=
          Int.floor_le_floor (by nlinarith)
      _ = 1000000 := by norm_num
  rw [div_le_one (by norm_num)]
  exact_mod_cast hfl

/-- Rounding to 6 decimals is the identity on values that are an integer
number of millionths. -/
theorem roundTo6_sixDp (n : ℤ) : roundTo6 ((n : ℚ) / 1000000) = (n : ℚ) / 1000000 := by
  rw [roundTo6, ratFloor_eq_intFloor]
  have h1 : (n : ℚ) / 1000000 * 1000000 = (n : ℚ) := by
    field_simp
  rw [h1]
  have h2 : ⌊(n : ℚ) + 1 / 2⌋ = n := by
    rw [Int.floor_int_add]
    norm_num
  rw [h2]

/-- Worked BUY example from the spec: the tracked expert is maker, gives
650,000 scaled collateral units and receives 1,000,000 outcome-token units. -/
def exBuyMaker : RawTradeEvent :=
  { id := "0xabc-7", txHash := "0xabc", logIndex := 7, blockNumber := 1, blockTimestamp := 0,
    detectedAt := 0, source := TradeSource.onChain, exchange := ExchangeType.ctf,
    orderHash := "oh", maker := "m", taker := "t",
    makerAssetId := "0", takerAssetId := "42",
    makerAmountFilled := 650000, takerAmountFilled := 1000000, fee := 0,
    expertSide := ExpertSide.maker }

/-- Worked SELL example from the spec: the tracked expert is taker, gives
5,000,000 outcome-token units and receives 3,500,000 scaled collateral units. -/
def exSellTaker : RawTradeEvent :=
  { id := "0xdef-3", txHash := "0xdef", logIndex := 3, blockNumber := 2, blockTimestamp := 0,
    detectedAt := 0, source := TradeSource.clobApi, exchange := ExchangeType.ctf,
    orderHash := "oh2", maker := "m", taker := "t",
    makerAssetId := "0", takerAssetId := "42",
    makerAmountFilled := 3500000, takerAmountFilled := 5000000, fee := 0,
    expertSide := ExpertSide.taker }

/-- Degenerate BUY with a zero token amount, exercising the
division-by-zero guard of decodeTrade. -/
def exZeroToken : RawTradeEvent :=
  { id := "0x0-0", txHash := "0x0", logIndex := 0, blockNumber := 3, blockTimestamp := 0,
    detectedAt := 0, source := TradeSource.onChain, exchange := ExchangeType.ctf,
    orderHash := "oh3", maker := "m", taker := "t",
    makerAssetId := "0", takerAssetId := "42",
    makerAmountFilled := 650000, takerAmountFilled := 0, fee := 0,
    expertSide := ExpertSide.maker }

/-- Claim C3: decodeTrade satisfies the two worked examples.  The BUY where
the expert gives 650,000 scaled collateral units and receives 1,000,000
outcome-token units decodes to side BUY, price 0.65, quantity 1, implied
probability 0.65; the SELL where the expert gives 5,000,000 token units and
receives 3,500,000 collateral units decodes to side SELL, price 0.70,
implied probability 0.30; and with a zero token amount the price is 0. -/
theorem claim_C3_decodeTrade_examples :
    (decodeTrade exBuyMaker).side = Side.BUY ∧
    (decodeTrade exBuyMaker).price = 0.65 ∧
    (decodeTrade exBuyMaker).quantity = 1 ∧
    (decodeTrade exBuyMaker).impliedProbability = 0.65 ∧
    (decodeTrade exSellTaker).side = Side.SELL ∧
    (decodeTrade exSellTaker).price = 0.70 ∧
    (decodeTrade exSellTaker).impliedProbability = 0.30 ∧
    (decodeTrade exZeroToken).price = 0 := by
  have hb1 : decodeIsBuying exBuyMaker = true := rfl
  have hu1 : tradeUsdcAmount exBuyMaker = 650000 := rfl
  have ht1 : tradeTokenAmount exBuyMaker = 1000000 := rfl
  have hb2 : decodeIsBuying exSellTaker = false := rfl
  have hu2 : tradeUsdcAmount exSellTaker = 3500000 := rfl
  have ht2 : tradeTokenAmount exSellTaker = 5000000 := rfl
  have hb3 : decodeIsBuying exZeroToken = true := rfl
  have hu3 : tradeUsdcAmount exZeroToken = 650000 := rfl
  have ht3 : tradeTokenAmount exZeroToken = 0 := rfl
  refine ⟨?_, ?_, ?_, ?_, ?_, ?_, ?_, ?_⟩ <;>
    norm_num [decodeTrade, tradePrice, hb1, hu1, ht1, hb2, hu2, ht2, hb3, hu3, ht3,
      roundTo6, ratFloor_eq_intFloor]

/-- A BUY in which the expert pays 2,000,000 scaled collateral units for
1,000,000 outcome-token units, so the raw price is 2. -/
def exPriceTwo : RawTradeEvent :=
  { id := "0xff-1", txHash := "0xff", logIndex := 1, blockNumber := 4, blockTimestamp := 0,
    detectedAt := 0, source := TradeSource.onChain, exchange := ExchangeType.ctf,
    orderHash := "oh4", maker := "m", taker := "t",
    makerAssetId := "0", takerAssetId := "42",
    makerAmountFilled := 2000000, takerAmountFilled := 1000000, fee := 0,
    expertSide := ExpertSide.maker }

/-- Claim C4, counterexample: decodeTrade does not clamp the price, so a
fill paying 2,000,000 collateral units for 1,000,000 token units (both
nonnegative) decodes to price 2, outside the claimed range 0 to 1. -/
theorem claim_C4_counterexample : ¬ (decodeTrade exPriceTwo).price ≤ 1 := by
  have h : (decodeTrade exPriceTwo).price = 2 := by
    norm_num [decodeTrade, tradePrice, tradeTokenAmount, tradeUsdcAmount, decodeIsBuying,
      expertGivesAssetId, expertGivesAmount, expertReceivesAssetId, expertReceivesAmount,
      decodeIsMaker, roundTo6, ratFloor_eq_intFloor, exPriceTwo]
  rw [h]
  norm_num

/-- Claim C4 as amended: for nonnegative filled amounts the decoded price
is always nonnegative, and it is at most 1 whenever the collateral amount
moved does not exceed the token amount moved; the code never clamps the
price, so nothing bounds it above when the collateral paid exceeds the
token amount received. -/
theorem claim_C4_price_range (raw : RawTradeEvent)
    (hm : 0 ≤ raw.makerAmountFilled) (ht : 0 ≤ raw.takerAmountFilled) :
    0 ≤ (decodeTrade raw).price ∧
      (tradeUsdcAmount raw ≤ tradeTokenAmount raw → (decodeTrade raw).price ≤ 1) := by
  have hu : 0 ≤ tradeUsdcAmount raw := by
    unfold tradeUsdcAmount expertGivesAmount expertReceivesAmount
    split_ifs <;> assumption
  have hprice : (decodeTrade raw).price = roundTo6 (tradePrice raw) := rfl
  have hp0 : 0 ≤ tradePrice raw := by
    unfold tradePrice
    split_ifs with hpos
    · apply div_nonneg
      · positivity
      · linarith
    · exact le_refl 0
  constructor
  · rw [hprice]
    exact roundTo6_nonneg hp0
  · intro hle
    rw [hprice]
    apply roundTo6_le_one
    unfold tradePrice
    split_ifs with hpos
    · rw [div_le_one hpos]
      have : ((tradeUsdcAmount raw : ℚ)) ≤ ((tradeTokenAmount raw : ℚ)) := by
        exact_mod_cast hle
      linarith
    · norm_num

/-- Claim C4 witness: the amended claim applied to the worked BUY example,
whose collateral amount 650,000 does not exceed its token amount 1,000,000. -/
theorem claim_C4_price_range_witness :
    0 ≤ (decodeTrade exBuyMaker).price ∧
      (tradeUsdcAmount exBuyMaker ≤ tradeTokenAmount exBuyMaker →
        (decodeTrade exBuyMaker).price ≤ 1) :=
  claim_C4_price_range exBuyMaker (by norm_num [exBuyMaker]) (by norm_num [exBuyMaker])

/-- Claim C5: computeMarketPhase agrees everywhere with the bucket map the
claim describes: early for missing or unparseable end dates; otherwise
near-resolution below 24 hours remaining (including zero and negative),
late from 24 hours up to but excluding 7 days, mid from 7 days up to but
excluding 30 days, and early at 30 days or more, each threshold compared
with strict less-than so an exact threshold value falls into the less
urgent bucket. -/
theorem claim_C5_marketPhase_buckets (endDate : Option (Option ℤ)) (now : ℤ) :
    computeMarketPhase endDate now = marketPhaseClaim endDate now := by
  rcases endDate with _ | parsed
  · rfl
  rcases parsed with _ | endMs
  · rfl
  simp only [computeMarketPhase, marketPhaseClaim, NEAR_RESOLUTION_THRESHOLD,
    LATE_THRESHOLD, MID_THRESHOLD]
  split_ifs <;> first | rfl | omega

/-- Decimal digit characters of a natural number, most significant first:
the model of the JS template interpolation of logIndex in buildEventId. -/
def natDigits (n : ℕ) : List Char :=
  if h : n < 10 then [Nat.digitChar n]
  else natDigits (n / 10) ++ [Nat.digitChar (n % 10)]
decreasing_by
  omega

/-- Model of buildEventId from types/index.ts: the template string
interpolation of the transaction hash, a dash, and the log index. -/
def buildEventId (txHash : String) (logIndex : ℕ) : String :=
  txHash ++ "-" ++ String.mk (natDigits logIndex)

/-- Digit characters of values below ten are never the dash. -/
theorem digitChar_ne_dash (k : ℕ) (h : k < 10) : Nat.digitChar k ≠ '-' := by
  interval_cases k <;> decide

/-- Digit characters are injective below ten. -/
theorem digitChar_inj (a b : ℕ) (ha : a < 10) (hb : b < 10)
    (h : Nat.digitChar a = Nat.digitChar b) : a = b := by
  interval_cases a <;> interval_cases b <;> first | rfl | exact absurd h (by decide)

/-- The digit list of a natural number is never empty. -/
theorem natDigits_ne_nil (n : ℕ) : natDigits n ≠ [] := by
  rw [natDigits]
  split_ifs <;> simp

/-- The digit list of a natural number never contains a dash. -/
theorem natDigits_no_dash (n : ℕ) : '-' ∉ natDigits n := by
  induction n using Nat.strong_induction_on with
  | _ n ih =>
    rw [natDigits]
    split_ifs with h
    · simp only [List.mem_singleton]
      exact fun hc => digitChar_ne_dash n h hc.symm
    · intro hc
      rcases List.mem_append.mp hc with hc | hc
      · exact ih (n / 10) (by omega) hc
      · rw [List.mem_singleton] at hc
        exact digitChar_ne_dash (n % 10) (by omega) hc.symm

/-- Lists ending in a single appended element are equal only when both the
prefixes and the appended elements agree. -/
theorem append_singleton_inj {l1 l2 : List Char} {a b : Char}
    (h : l1 ++ [a] = l2 ++ [b]) : l1 = l2 ∧ a = b := by
  have hr := congrArg List.reverse h
  simp only [List.reverse_append, List.reverse_cons, List.reverse_nil,
    List.nil_append, List.singleton_append, List.cons.injEq] at hr
  exact ⟨by
    have := hr.2
    have h2 := congrArg List.reverse this
    simpa using h2, hr.1⟩

/-- Decimal digit lists are injective. -/
theorem natDigits_injective : ∀ m n : ℕ, natDigits m = natDigits n → m = n := by
  intro m
  induction m using Nat.strong_induction_on with
  | _ m ih =>
    intro n h
    rw [natDigits] at h
    have h' := h.symm
    rw [natDigits] at h'
    clear h
    split_ifs at h' with hn hm hm
    · rw [List.cons.injEq] at h'
      exact (digitChar_inj n m hn hm h'.1).symm
    · exfalso
      have hl := congrArg List.length h'
      simp only [List.length_singleton, List.length_append] at hl
      have h0 : (natDigits (m / 10)).length = 0 := by omega
      exact natDigits_ne_nil (m / 10) (List.length_eq_zero.mp h0)
    · exfalso
      have hl := congrArg List.length h'
      simp only [List.length_singleton, List.length_append] at hl
      have h0 : (natDigits (n / 10)).length = 0 := by omega
      exact natDigits_ne_nil (n / 10) (List.length_eq_zero.mp h0)
    · obtain ⟨hpre, hdig⟩ := append_singleton_inj h'
      have hdiv : m / 10 = n / 10 := ih (m / 10) (by omega) (n / 10) hpre.symm
      have hmod : n % 10 = m % 10 :=
        digitChar_inj (n % 10) (m % 10) (by omega) (by omega) hdig
      omega

/-- Splitting a character list at its first dash is unambiguous. -/
theorem split_at_first_dash :
    ∀ (l1 l2 r1 r2 : List Char), '-' ∉ l1 → '-' ∉ l2 →
      l1 ++ '-' :: r1 = l2 ++ '-' :: r2 → l1 = l2 ∧ r1 = r2 := by
  intro l1
  induction l1 with
  | nil =>
    intro l2 r1 r2 _ hn2 h
    cases l2 with
    | nil => simpa using h
    | cons b t =>
      exfalso
      simp only [List.nil_append, List.cons_append, List.cons.injEq] at h
      exact hn2 (h.1 ▸ List.mem_cons_self b t)
  | cons a t ih =>
    intro l2 r1 r2 hn1 hn2 h
    cases l2 with
    | nil =>
      exfalso
      simp only [List.cons_append, List.nil_append, List.cons.injEq] at h
      exact hn1 (h.1 ▸ List.mem_cons_self a t)
    | cons b t2 =>
      simp only [List.cons_append, List.cons.injEq] at h
      obtain ⟨rfl, h2⟩ := h
      obtain ⟨ht, hr⟩ := ih t2 r1 r2 (fun hm => hn1 (List.mem_cons_of_mem _ hm))
        (fun hm => hn2 (List.mem_cons_of_mem _ hm)) h2
      exact ⟨by rw [ht], hr⟩

/-- Claim C10: buildEventId is injective on dash-free transaction hashes
and natural-number log indices, and the identity depends on no other field
of the detection (buildEventId consumes only these two inputs). -/
theorem claim_C10_buildEventId_injective (t1 t2 : String) (l1 l2 : ℕ)
    (h1 : '-' ∉ t1.data) (h2 : '-' ∉ t2.data) :
    buildEventId t1 l1 = buildEventId t2 l2 ↔ (t1 = t2 ∧ l1 = l2) := by
  constructor
  · intro h
    have hd := congrArg String.data h
    simp only [buildEventId, String.data_append] at hd
    have hd' : t1.data ++ '-' :: natDigits l1 = t2.data ++ '-' :: natDigits l2 := by
      simpa using hd
    obtain ⟨hpre, hdig⟩ := split_at_first_dash _ _ _ _ h1 h2 hd'
    constructor
    · cases t1; cases t2; exact congrArg String.mk hpre
    · exact natDigits_injective l1 l2 hdig
  · rintro ⟨rfl, rfl⟩
    rfl

/-- Claim C10 witness: applied to two concrete dash-free pairs. -/
theorem claim_C10_buildEventId_injective_witness :
    buildEventId "0xaa" 5 = buildEventId "0xaa" 5 ↔ ("0xaa" = "0xaa" ∧ 5 = 5) :=
  claim_C10_buildEventId_injective "0xaa" "0xaa" 5 5 (by decide) (by decide)

/-- Model of DeduplicationResult from types/index.ts. -/
structure DeduplicationResult where
  isNew : Bool
  eventId : String
deriving DecidableEq

/-- Model of LRUCache.has from deduplicator.ts on the recency list (oldest
first, mirroring JS Map insertion order): a present key is moved to the
end (most recently used); the list is unchanged otherwise. -/
def lruTouch (l : List String) (k : String) : List String :=
  if k ∈ l then l.erase k ++ [k] else l

/-- Model of LRUCache.add from deduplicator.ts: a present key is re-added
at the end; otherwise, when the cache is full, the oldest (first) key is
evicted before the new key is appended. -/
def lruAdd (l : List String) (maxSize : ℕ) (k : String) : List String :=
  if k ∈ l then l.erase k ++ [k]
  else if maxSize ≤ l.length then l.drop 1 ++ [k]
  else l ++ [k]

/-- Combined state of a Deduplicator and its EventStore: the LRU recency
list with its capacity, the set of event ids durably stored in the
raw_events table (keyed by its primary key id), and the hit and miss
counters. -/
structure DedupState where
  lru : List String
  lruMax : ℕ
  store : List String
  hits : ℕ
  misses : ℕ

/-- Model of EventStore.insertEvent from store/event-store.ts: an INSERT
OR IGNORE keyed on the primary key id; returns true exactly when a row was
inserted, alongside the updated store contents. -/
def insertEvent (store : List String) (event : RawTradeEvent) : Bool × List String :=
  if event.id ∈ store then (false, store) else (true, store ++ [event.id])

/-- Model of Deduplicator.process from deduplicator.ts: LRU fast path,
then durable insert-if-absent, then LRU update and counter update. -/
def dedupProcess (s : DedupState) (event : RawTradeEvent) :
    DeduplicationResult × DedupState :=
  if event.id ∈ s.lru then
    (⟨false, event.id⟩, { s with lru := lruTouch s.lru event.id, hits := s.hits + 1 })
  else
    let r := insertEvent s.store event
    if r.fst = false then
      (⟨false, event.id⟩,
        { s with lru := lruAdd s.lru s.lruMax event.id, store := r.snd, hits := s.hits + 1 })
    else
      (⟨true, event.id⟩,
        { s with lru := lruAdd s.lru s.lruMax event.id, store := r.snd,
                 misses := s.misses + 1 })

/-- Adding a key to the LRU always leaves that key present. -/
theorem mem_lruAdd_self (l : List String) (maxSize : ℕ) (k : String) :
    k ∈ lruAdd l maxSize k := by
  unfold lruAdd
  split_ifs <;> simp

/-- Members of the LRU after an add were members before or are the added
key. -/
theorem mem_of_mem_lruAdd {l : List String} {maxSize : ℕ} {k x : String}
    (h : x ∈ lruAdd l maxSize k) : x ∈ l ∨ x = k := by
  unfold lruAdd at h
  split_ifs at h with h1 h2
  · rcases List.mem_append.mp h with h | h
    · exact Or.inl (List.erase_subset _ _ h)
    · exact Or.inr (List.mem_singleton.mp h)
  · rcases List.mem_append.mp h with h | h
    · exact Or.inl (List.drop_subset 1 l h)
    · exact Or.inr (List.mem_singleton.mp h)
  · rcases List.mem_append.mp h with h | h
    · exact Or.inl h
    · exact Or.inr (List.mem_singleton.mp h)

/-- Members of the LRU after a touch were members before. -/
theorem mem_of_mem_lruTouch {l : List String} {k x : String}
    (h : x ∈ lruTouch l k) : x ∈ l := by
  unfold lruTouch at h
  split_ifs at h with h1
  · rcases List.mem_append.mp h with h | h
    · exact List.erase_subset _ _ h
    · exact List.mem_singleton.mp h ▸ h1
  · exact h

/-- Processing preserves the reachable-state invariant that every id in
the in-memory LRU is already durably stored: the LRU only ever learns an
id after the store has been consulted for it.  Every state reachable from
the initial state (empty LRU, any store) satisfies this invariant. -/
theorem dedupProcess_preserves_invariant (s : DedupState) (e : RawTradeEvent)
    (hinv : ∀ x ∈ s.lru, x ∈ s.store) :
    ∀ x ∈ (dedupProcess s e).snd.lru, x ∈ (dedupProcess s e).snd.store := by
  intro x hx
  by_cases hl : e.id ∈ s.lru
  · simp only [dedupProcess, if_pos hl] at hx ⊢
    exact hinv x (mem_of_mem_lruTouch hx)
  by_cases hs : e.id ∈ s.store
  · simp [dedupProcess, insertEvent, hl, hs] at hx ⊢
    rcases mem_of_mem_lruAdd hx with h | h
    · exact hinv x h
    · exact h ▸ hs
  · simp [dedupProcess, insertEvent, hl, hs] at hx ⊢
    rcases mem_of_mem_lruAdd hx with h | h
    · exact Or.inl (hinv x h)
    · exact Or.inr h

/-- Claim C1: starting from any store state not containing the identity of
e (and an LRU consistent with the store, as every reachable state is),
processing e twice yields isNew true then isNew false; and processing,
after e, a second detection that shares the transaction hash and log
position of e but carries a different source tag also yields isNew false,
because the identity built by buildEventId depends only on the transaction
hash and log position. -/
theorem claim_C1_dedup_process_pairs (s : DedupState) (e e2 : RawTradeEvent)
    (hinv : ∀ x ∈ s.lru, x ∈ s.store)
    (hnew : e.id ∉ s.store)
    (hid : e.id = buildEventId e.txHash e.logIndex)
    (hid2 : e2.id = buildEventId e2.txHash e2.logIndex)
    (htx : e2.txHash = e.txHash) (hlog : e2.logIndex = e.logIndex)
    (hsrc : e2.source ≠ e.source) :
    (dedupProcess s e).fst.isNew = true ∧
    (dedupProcess (dedupProcess s e).snd e).fst.isNew = false ∧
    (dedupProcess (dedupProcess s e).snd e2).fst.isNew = false := by
  have hlru : e.id ∉ s.lru := fun hm => hnew (hinv _ hm)
  have heq2 : e2.id = e.id := by rw [hid2, hid, htx, hlog]
  have h1 : dedupProcess s e =
      (⟨true, e.id⟩,
        { s with lru := lruAdd s.lru s.lruMax e.id, store := s.store ++ [e.id],
                 misses := s.misses + 1 }) := by
    simp [dedupProcess, insertEvent, hlru, hnew]
  refine ⟨by rw [h1], ?_, ?_⟩
  · rw [h1]
    simp only [dedupProcess]
    rw [if_pos (mem_lruAdd_self s.lru s.lruMax e.id)]
  · rw [h1]
    simp only [dedupProcess]
    rw [heq2, if_pos (mem_lruAdd_self s.lru s.lruMax e.id)]

/-- Claim C2: whenever process reports an event as new, a row with the
event's identity exists in the durable store in the post-state (the
insert-if-absent succeeded: the identity was absent before and present
after); process never reports new without that successful durable insert.
The model is a pure state transformer, so the store update is part of the
very step that returns isNew, never after it. -/
theorem claim_C2_new_implies_persisted (s : DedupState) (e : RawTradeEvent)
    (h : (dedupProcess s e).fst.isNew = true) :
    e.id ∈ (dedupProcess s e).snd.store ∧ e.id ∉ s.store := by
  by_cases hl : e.id ∈ s.lru
  · exfalso
    simp [dedupProcess, hl] at h
  by_cases hs : e.id ∈ s.store
  · exfalso
    simp [dedupProcess, insertEvent, hl, hs] at h
  · refine ⟨?_, hs⟩
    simp [dedupProcess, insertEvent, hl, hs]

/-- Fresh deduplicator state over an empty store, as built at startup. -/
def wDedupState : DedupState :=
  { lru := [], lruMax := 10000, store := [], hits := 0, misses := 0 }

/-- Concrete on-chain detection whose identity is built by buildEventId. -/
def wEventA : RawTradeEvent :=
  { id := buildEventId "0xaa" 5, txHash := "0xaa", logIndex := 5, blockNumber := 9,
    blockTimestamp := 0, detectedAt := 0, source := TradeSource.onChain,
    exchange := ExchangeType.ctf, orderHash := "oh", maker := "m", taker := "t",
    makerAssetId := "0", takerAssetId := "42",
    makerAmountFilled := 650000, takerAmountFilled := 1000000, fee := 0,
    expertSide := ExpertSide.maker }

/-- The same fill as observed by the poll watcher: identical transaction
hash and log position, different source tag. -/
def wEventB : RawTradeEvent :=
  { id := buildEventId "0xaa" 5, txHash := "0xaa", logIndex := 5, blockNumber := 9,
    blockTimestamp := 0, detectedAt := 7, source := TradeSource.clobApi,
    exchange := ExchangeType.ctf, orderHash := "oh", maker := "m", taker := "t",
    makerAssetId := "0", takerAssetId := "42",
    makerAmountFilled := 650000, takerAmountFilled := 1000000, fee := 0,
    expertSide := ExpertSide.maker }

/-- Claim C1 witness: the theorem applied to a fresh state and the two
concrete cross-source detections above. -/
theorem claim_C1_dedup_process_pairs_witness :
    (dedupProcess wDedupState wEventA).fst.isNew = true ∧
    (dedupProcess (dedupProcess wDedupState wEventA).snd wEventA).fst.isNew = false ∧
    (dedupProcess (dedupProcess wDedupState wEventA).snd wEventB).fst.isNew = false :=
  claim_C1_dedup_process_pairs wDedupState wEventA wEventB
    (by simp [wDedupState]) (by simp [wDedupState]) rfl rfl rfl rfl (by decide)

/-- Claim C2 witness: the theorem applied to the fresh state and the
concrete detection, whose first processing reports isNew true. -/
theorem claim_C2_new_implies_persisted_witness :
    wEventA.id ∈ (dedupProcess wDedupState wEventA).snd.store ∧
      wEventA.id ∉ wDedupState.store :=
  claim_C2_new_implies_persisted wDedupState wEventA rfl

/-- Model of MarketMetadata from normalizer/types.ts.  The endDate string
field is carried as its parse outcome, as for computeMarketPhase: none is
a null (or otherwise falsy) date, some none an unparseable one, and
some (some ms) a date parsing to epoch milliseconds ms. -/
structure MarketMetadata where
  conditionId : String
  question : String
  outcomes : List String
  outcomePrices : List String
  endDate : Option (Option ℤ)
  clobTokenIds : List String
  liquidityNum : ℚ
  active : Bool
  closed : Bool
  negativeRisk : Bool
deriving DecidableEq

/-- Model of CacheEntry from normalizer/cache/market-cache.ts. -/
structure CacheEntry where
  data : MarketMetadata
  expiresAt : ℤ
deriving DecidableEq

/-- State of a MarketCache: the underlying JS Map modelled as an
association list in insertion order (head oldest), plus the two options. -/
structure MarketCacheState where
  entries : List (String × CacheEntry)
  ttlMs : ℤ
  maxSize : ℕ
deriving DecidableEq

/-- Lookup in the insertion-ordered map (JS Map.get). -/
def mapFind : List (String × CacheEntry) → String → Option CacheEntry
  | [], _ => none
  | (k, v) :: rest, key => if k = key then some v else mapFind rest key

/-- Write to the insertion-ordered map (JS Map.set): an existing key keeps
its position and gets the new value; a new key is appended at the end. -/
def mapSet : List (String × CacheEntry) → String → CacheEntry → List (String × CacheEntry)
  | [], key, v => [(key, v)]
  | (k, w) :: rest, key, v =>
    if k = key then (key, v) :: rest else (k, w) :: mapSet rest key v

/-- Removal from the insertion-ordered map (JS Map.delete). -/
def mapErase : List (String × CacheEntry) → String → List (String × CacheEntry)
  | [], _ => []
  | (k, v) :: rest, key => if k = key then rest else (k, v) :: mapErase rest key

/-- Model of the private evictIfNeeded of MarketCache: when the map has
reached capacity, the oldest (first-inserted) entry is removed. -/
def evictIfNeeded (c : MarketCacheState) : MarketCacheState :=
  if c.maxSize ≤ c.entries.length then { c with entries := c.entries.drop 1 } else c

/-- Model of MarketCache.get: a missing key returns null; an entry whose
expiry lies strictly before the query time is lazily deleted and returns
null; otherwise the entry is moved to the end (most recently used) and its
metadata returned. -/
def mcGet (c : MarketCacheState) (tokenId : String) (now : ℤ) :
    Option MarketMetadata × MarketCacheState :=
  match mapFind c.entries tokenId with
  | none => (none, c)
  | some entry =>
    if entry.expiresAt < now then
      (none, { c with entries := mapErase c.entries tokenId })
    else
      (some entry.data,
        { c with entries := mapErase c.entries tokenId ++ [(tokenId, entry)] })

/-- One iteration of the companion fan-out loop of MarketCache.set: a
non-empty companion token id distinct from the primary key is stored under
the same entry, evicting the oldest entry first if the cache is full. -/
def mcSetStep (tokenId : String) (entry : CacheEntry)
    (acc : MarketCacheState) (tid : String) : MarketCacheState :=
  if tid ≠ "" ∧ tid ≠ tokenId then
    let a1 := evictIfNeeded acc
    { a1 with entries := mapSet a1.entries tid entry }
  else acc

/-- Model of MarketCache.set: computes the expiry, stores under the
primary token id (evicting first if full), then fans the same value out
under every other non-empty CLOB token id of the market.  The source's
locals expiresAt and the intermediate cache value are inlined. -/
def mcSet (c : MarketCacheState) (tokenId : String) (metadata : MarketMetadata)
    (now : ℤ) : MarketCacheState :=
  List.foldl (mcSetStep tokenId { data := metadata, expiresAt := now + c.ttlMs })
    { evictIfNeeded c with
        entries := mapSet (evictIfNeeded c).entries tokenId
          { data := metadata, expiresAt := now + c.ttlMs } }
    metadata.clobTokenIds

/-- After writing a key, looking that key up yields the written value. -/
theorem mapFind_mapSet_self (m : List (String × CacheEntry)) (k : String) (v : CacheEntry) :
    mapFind (mapSet m k v) k = some v := by
  induction m with
  | nil => simp [mapFind, mapSet]
  | cons p rest ih =>
    obtain ⟨a, w⟩ := p
    simp only [mapSet]
    split_ifs with h
    · simp [mapFind]
    · simp [mapFind, h, ih]

/-- Writing one key leaves lookups of any other key unchanged. -/
theorem mapFind_mapSet_ne (m : List (String × CacheEntry)) {k key : String}
    (v : CacheEntry) (h : k ≠ key) : mapFind (mapSet m k v) key = mapFind m key := by
  induction m with
  | nil => simp [mapFind, mapSet, h]
  | cons p rest ih =>
    obtain ⟨a, w⟩ := p
    simp only [mapSet]
    split_ifs with ha
    · subst ha
      simp [mapFind, h]
    · simp only [mapFind]
      split_ifs with hb
      · rfl
      · exact ih

/-- Writing a key grows the map by at most one entry. -/
theorem length_mapSet (m : List (String × CacheEntry)) (k : String) (v : CacheEntry) :
    (mapSet m k v).length ≤ m.length + 1 := by
  induction m with
  | nil => simp [mapSet]
  | cons p rest ih =>
    obtain ⟨a, w⟩ := p
    simp only [mapSet]
    split_ifs with h
    · simp
    · simp only [List.length_cons]
      omega

/-- Keys present after a write were present before or are the written key. -/
theorem keys_mapSet_mem {m : List (String × CacheEntry)} {k x : String} {v : CacheEntry}
    (h : x ∈ (mapSet m k v).map Prod.fst) : x ∈ m.map Prod.fst ∨ x = k := by
  induction m with
  | nil => simpa [mapSet] using h
  | cons p rest ih =>
    obtain ⟨a, w⟩ := p
    simp only [mapSet] at h
    split_ifs at h with ha
    · subst ha
      left
      simpa using h
    · simp only [List.map_cons, List.mem_cons] at h ⊢
      rcases h with h | h
      · exact Or.inl (Or.inl h)
      · rcases ih h with h | h
        · exact Or.inl (Or.inr h)
        · exact Or.inr h

/-- Writes preserve distinctness of the map's keys. -/
theorem nodup_keys_mapSet {m : List (String × CacheEntry)} (k : String) (v : CacheEntry)
    (h : (m.map Prod.fst).Nodup) : ((mapSet m k v).map Prod.fst).Nodup := by
  induction m with
  | nil => simp [mapSet]
  | cons p rest ih =>
    obtain ⟨a, w⟩ := p
    simp only [List.map_cons, List.nodup_cons] at h
    simp only [mapSet]
    split_ifs with ha
    · subst ha
      simpa using h
    · simp only [List.map_cons, List.nodup_cons]
      refine ⟨fun hmem => ?_, ih h.2⟩
      rcases keys_mapSet_mem hmem with hmem | hmem
      · exact h.1 hmem
      · exact ha hmem

/-- A key absent from the key list is not found. -/
theorem mapFind_eq_none_of_not_mem {m : List (String × CacheEntry)} {key : String}
    (h : key ∉ m.map Prod.fst) : mapFind m key = none := by
  induction m with
  | nil => rfl
  | cons p rest ih =>
    obtain ⟨a, w⟩ := p
    simp only [List.map_cons, List.mem_cons] at h
    push_neg at h
    simp only [mapFind]
    rw [if_neg (Ne.symm h.1), ih h.2]

/-- Under distinct keys, dropping the oldest entry either removes the
looked-up binding or leaves the lookup unchanged. -/
theorem mapFind_drop_one {m : List (String × CacheEntry)} (key : String)
    (hnd : (m.map Prod.fst).Nodup) :
    mapFind (m.drop 1) key = none ∨ mapFind (m.drop 1) key = mapFind m key := by
  cases m with
  | nil => exact Or.inl rfl
  | cons p rest =>
    obtain ⟨a, w⟩ := p
    simp only [List.drop_succ_cons, List.drop_zero]
    by_cases ha : a = key
    · subst ha
      simp only [List.map_cons, List.nodup_cons] at hnd
      exact Or.inl (mapFind_eq_none_of_not_mem hnd.1)
    · right
      simp [mapFind, ha]

/-- Dropping the oldest entry preserves distinctness of keys. -/
theorem nodup_keys_drop_one {m : List (String × CacheEntry)}
    (h : (m.map Prod.fst).Nodup) : ((m.drop 1).map Prod.fst).Nodup := by
  cases m with
  | nil => simp
  | cons p rest =>
    simp only [List.map_cons, List.nodup_cons] at h
    simpa using h.2

/-- A cache below capacity is not evicted from. -/
theorem evictIfNeeded_of_lt {c : MarketCacheState}
    (h : c.entries.length < c.maxSize) : evictIfNeeded c = c := by
  unfold evictIfNeeded
  rw [if_neg (by omega)]

/-- Eviction never changes the capacity option. -/
theorem evictIfNeeded_maxSize (c : MarketCacheState) :
    (evictIfNeeded c).maxSize = c.maxSize := by
  unfold evictIfNeeded
  split_ifs <;> rfl

/-- Eviction never changes the TTL option. -/
theorem evictIfNeeded_ttlMs (c : MarketCacheState) :
    (evictIfNeeded c).ttlMs = c.ttlMs := by
  unfold evictIfNeeded
  split_ifs <;> rfl

/-- Eviction never grows the cache. -/
theorem evictIfNeeded_length (c : MarketCacheState) :
    (evictIfNeeded c).entries.length ≤ c.entries.length := by
  unfold evictIfNeeded
  split_ifs
  · simp only [List.length_drop]
    omega
  · exact le_refl _

/-- Eviction preserves distinctness of keys. -/
theorem evictIfNeeded_nodup {c : MarketCacheState}
    (h : (c.entries.map Prod.fst).Nodup) :
    ((evictIfNeeded c).entries.map Prod.fst).Nodup := by
  unfold evictIfNeeded
  split_ifs
  · exact nodup_keys_drop_one h
  · exact h

/-- One fan-out iteration preserves the capacity option. -/
theorem mcSetStep_maxSize (t : String) (e : CacheEntry) (acc : MarketCacheState)
    (tid : String) : (mcSetStep t e acc tid).maxSize = acc.maxSize := by
  unfold mcSetStep evictIfNeeded
  split_ifs <;> rfl

/-- One fan-out iteration grows the cache by at most one entry when it was
below capacity. -/
theorem mcSetStep_length {acc : MarketCacheState} (t : String) (e : CacheEntry)
    (tid : String) (h : acc.entries.length < acc.maxSize) :
    (mcSetStep t e acc tid).entries.length ≤ acc.entries.length + 1 := by
  unfold mcSetStep
  split_ifs with hg
  · rw [evictIfNeeded_of_lt h]
    exact length_mapSet acc.entries tid e
  · omega

/-- Below capacity, one fan-out iteration preserves any binding that
already holds the written entry (possibly rewriting it with itself). -/
theorem mcSetStep_preserves_find {acc : MarketCacheState} (t : String) (e : CacheEntry)
    (tid K : String) (hlen : acc.entries.length < acc.maxSize)
    (hK : mapFind acc.entries K = some e) :
    mapFind (mcSetStep t e acc tid).entries K = some e := by
  unfold mcSetStep
  split_ifs with hg
  · rw [evictIfNeeded_of_lt hlen]
    by_cases htk : tid = K
    · subst htk
      exact mapFind_mapSet_self acc.entries tid e
    · rw [mapFind_mapSet_ne acc.entries e htk]
      exact hK
  · exact hK

/-- Below capacity, one fan-out iteration on an eligible companion key
binds that key to the written entry. -/
theorem mcSetStep_writes {acc : MarketCacheState} (t : String) (e : CacheEntry)
    (tid : String) (hlen : acc.entries.length < acc.maxSize)
    (h1 : tid ≠ "") (h2 : tid ≠ t) :
    mapFind (mcSetStep t e acc tid).entries tid = some e := by
  unfold mcSetStep
  rw [if_pos ⟨h1, h2⟩, evictIfNeeded_of_lt hlen]
  exact mapFind_mapSet_self acc.entries tid e

/-- One fan-out iteration preserves distinctness of keys. -/
theorem mcSetStep_nodup {acc : MarketCacheState} (t : String) (e : CacheEntry)
    (tid : String) (h : (acc.entries.map Prod.fst).Nodup) :
    ((mcSetStep t e acc tid).entries.map Prod.fst).Nodup := by
  unfold mcSetStep
  split_ifs with hg
  · exact nodup_keys_mapSet tid e (evictIfNeeded_nodup h)
  · exact h

/-- Under distinct keys, one fan-out iteration keeps every binding of a
key distinct from the fanned companion either absent or equal to the
written entry, when it was so before. -/
theorem mcSetStep_stale {acc : MarketCacheState} (t : String) (e : CacheEntry)
    (tid K : String) (hnd : (acc.entries.map Prod.fst).Nodup)
    (hQ : mapFind acc.entries K = none ∨ mapFind acc.entries K = some e) :
    mapFind (mcSetStep t e acc tid).entries K = none ∨
      mapFind (mcSetStep t e acc tid).entries K = some e := by
  unfold mcSetStep
  split_ifs with hg
  · have hQ1 : mapFind (evictIfNeeded acc).entries K = none ∨
        mapFind (evictIfNeeded acc).entries K = some e := by
      unfold evictIfNeeded
      split_ifs
      · rcases mapFind_drop_one K hnd with h | h
        · exact Or.inl h
        · rw [h]
          exact hQ
      · exact hQ
    by_cases htk : tid = K
    · subst htk
      exact Or.inr (mapFind_mapSet_self _ tid e)
    · rw [mapFind_mapSet_ne _ e htk]
      exact hQ1
  · exact hQ

/-- Across the whole fan-out, bindings holding the written entry are
preserved as long as the cache never reaches capacity. -/
theorem mcSetFold_preserves (t : String) (e : CacheEntry) :
    ∀ (l : List String) (acc : MarketCacheState) (K : String),
      acc.entries.length + l.length ≤ acc.maxSize →
      mapFind acc.entries K = some e →
      mapFind (List.foldl (mcSetStep t e) acc l).entries K = some e := by
  intro l
  induction l with
  | nil =>
    intro acc K _ hK
    simpa using hK
  | cons hd tl ih =>
    intro acc K hlen hK
    rw [List.foldl_cons]
    have hlt : acc.entries.length < acc.maxSize := by
      simp only [List.length_cons] at hlen
      omega
    apply ih
    · have h1 := mcSetStep_length t e hd hlt
      have h2 := mcSetStep_maxSize t e acc hd
      simp only [List.length_cons] at hlen
      omega
    · exact mcSetStep_preserves_find t e hd K hlt hK

/-- Across the whole fan-out, every eligible companion key ends up bound
to the written entry as long as the cache never reaches capacity. -/
theorem mcSetFold_mem (t : String) (e : CacheEntry) :
    ∀ (l : List String) (acc : MarketCacheState) (B : String),
      acc.entries.length + l.length ≤ acc.maxSize →
      B ∈ l → B ≠ "" → B ≠ t →
      mapFind (List.foldl (mcSetStep t e) acc l).entries B = some e := by
  intro l
  induction l with
  | nil =>
    intro acc B _ hB _ _
    exact absurd hB (List.not_mem_nil B)
  | cons hd tl ih =>
    intro acc B hlen hB hBe hBt
    rw [List.foldl_cons]
    have hlt : acc.entries.length < acc.maxSize := by
      simp only [List.length_cons] at hlen
      omega
    have hstep_len : (mcSetStep t e acc hd).entries.length + tl.length ≤
        (mcSetStep t e acc hd).maxSize := by
      have h1 := mcSetStep_length t e hd hlt
      rw [mcSetStep_maxSize]
      simp only [List.length_cons] at hlen
      omega
    rcases List.mem_cons.mp hB with rfl | hB2
    · exact mcSetFold_preserves t e tl _ B hstep_len
        (mcSetStep_writes t e B hlt hBe hBt)
    · exact ih _ B hstep_len hB2 hBe hBt

/-- Across the whole fan-out, under distinct keys, a binding that was
absent or held the written entry stays absent or holds the written entry. -/
theorem mcSetFold_stale (t : String) (e : CacheEntry) :
    ∀ (l : List String) (acc : MarketCacheState) (K : String),
      (acc.entries.map Prod.fst).Nodup →
      (mapFind acc.entries K = none ∨ mapFind acc.entries K = some e) →
      (mapFind (List.foldl (mcSetStep t e) acc l).entries K = none ∨
        mapFind (List.foldl (mcSetStep t e) acc l).entries K = some e) := by
  intro l
  induction l with
  | nil =>
    intro acc K _ hQ
    simpa using hQ
  | cons hd tl ih =>
    intro acc K hnd hQ
    rw [List.foldl_cons]
    exact ih _ K (mcSetStep_nodup t e hd hnd) (mcSetStep_stale t e hd K hnd hQ)

/-- A fresh binding is returned by get before its expiry. -/
theorem mcGet_fst_some {c : MarketCacheState} {k : String} {now : ℤ} {e : CacheEntry}
    (h : mapFind c.entries k = some e) (hfr : ¬ e.expiresAt < now) :
    (mcGet c k now).fst = some e.data := by
  simp only [mcGet, h]
  rw [if_neg hfr]

/-- An absent key makes get return null. -/
theorem mcGet_fst_none_of_absent {c : MarketCacheState} {k : String} {now : ℤ}
    (h : mapFind c.entries k = none) : (mcGet c k now).fst = none := by
  simp only [mcGet, h]

/-- An expired binding makes get return null (lazy eviction). -/
theorem mcGet_fst_none_of_stale {c : MarketCacheState} {k : String} {now : ℤ}
    {e : CacheEntry} (h : mapFind c.entries k = some e) (hst : e.expiresAt < now) :
    (mcGet c k now).fst = none := by
  simp only [mcGet, h]
  rw [if_pos hst]

/-- After a set whose writes all fit below capacity, the primary key is
bound to the fresh entry. -/
theorem mcSet_primary_find (c : MarketCacheState) (A : String) (m : MarketMetadata)
    (now : ℤ) (hcap : c.entries.length + 1 + m.clobTokenIds.length ≤ c.maxSize) :
    mapFind (mcSet c A m now).entries A =
      some { data := m, expiresAt := now + c.ttlMs } := by
  unfold mcSet
  have hlt : c.entries.length < c.maxSize := by omega
  rw [evictIfNeeded_of_lt hlt]
  apply mcSetFold_preserves
  · have h1 := length_mapSet c.entries A { data := m, expiresAt := now + c.ttlMs }
    dsimp only
    omega
  · exact mapFind_mapSet_self c.entries A _

/-- After a set whose writes all fit below capacity, every non-empty
companion key distinct from the primary key is bound to the fresh entry. -/
theorem mcSet_companion_find (c : MarketCacheState) (A B : String) (m : MarketMetadata)
    (now : ℤ) (hcap : c.entries.length + 1 + m.clobTokenIds.length ≤ c.maxSize)
    (hB : B ∈ m.clobTokenIds) (hBe : B ≠ "") (hBA : B ≠ A) :
    mapFind (mcSet c A m now).entries B =
      some { data := m, expiresAt := now + c.ttlMs } := by
  unfold mcSet
  have hlt : c.entries.length < c.maxSize := by omega
  rw [evictIfNeeded_of_lt hlt]
  apply mcSetFold_mem
  · have h1 := length_mapSet c.entries A { data := m, expiresAt := now + c.ttlMs }
    dsimp only
    omega
  · exact hB
  · exact hBe
  · exact hBA

/-- After any set (no capacity assumption), under distinct keys, the
primary key is either evicted or bound to the fresh entry: its expiry, if
present at all, is the one stamped by this set. -/
theorem mcSet_primary_stale (c : MarketCacheState) (A : String) (m : MarketMetadata)
    (now : ℤ) (hnd : (c.entries.map Prod.fst).Nodup) :
    mapFind (mcSet c A m now).entries A = none ∨
      mapFind (mcSet c A m now).entries A =
        some { data := m, expiresAt := now + c.ttlMs } := by
  unfold mcSet
  apply mcSetFold_stale
  · exact nodup_keys_mapSet A _ (evictIfNeeded_nodup hnd)
  · exact Or.inr (mapFind_mapSet_self _ A _)

/-- Scenario metadata A: a market with no listed companion token ids. -/
def mmA : MarketMetadata :=
  { conditionId := "ca", question := "qa", outcomes := ["Yes", "No"], outcomePrices := [],
    endDate := none, clobTokenIds := [], liquidityNum := 0, active := true,
    closed := false, negativeRisk := false }

/-- Scenario metadata B: a market with no listed companion token ids. -/
def mmB : MarketMetadata :=
  { conditionId := "cb", question := "qb", outcomes := ["Yes", "No"], outcomePrices := [],
    endDate := none, clobTokenIds := [], liquidityNum := 0, active := true,
    closed := false, negativeRisk := false }

/-- Scenario metadata C: a market with no listed companion token ids. -/
def mmC : MarketMetadata :=
  { conditionId := "cc", question := "qc", outcomes := ["Yes", "No"], outcomePrices := [],
    endDate := none, clobTokenIds := [], liquidityNum := 0, active := true,
    closed := false, negativeRisk := false }

/-- Empty 2-capacity cache with the default 5-minute TTL. -/
def cacheScn0 : MarketCacheState := { entries := [], ttlMs := 300000, maxSize := 2 }

/-- Cache after inserting A at time 0 and then B at time 0. -/
def cacheScn2 : MarketCacheState := mcSet (mcSet cacheScn0 "A" mmA 0) "B" mmB 0

/-- Cache after additionally refreshing A's recency with a get at time 1. -/
def cacheScn3 : MarketCacheState := (mcGet cacheScn2 "A" 1).snd

/-- Cache after additionally inserting C at time 2, which must evict the
least-recently-accessed key. -/
def cacheScn4 : MarketCacheState := mcSet cacheScn3 "C" mmC 2

/-- Metadata whose outcome-token-id list names the companion token B. -/
def mmPair : MarketMetadata :=
  { conditionId := "cp", question := "qp", outcomes := ["Yes", "No"], outcomePrices := [],
    endDate := none, clobTokenIds := ["B"], liquidityNum := 0, active := true,
    closed := false, negativeRisk := false }

/-- Empty 1-capacity cache with the default 5-minute TTL. -/
def cacheTiny : MarketCacheState := { entries := [], ttlMs := 300000, maxSize := 1 }

/-- Claim C7, counterexample to the claim as stated: in a capacity-1 cache
the companion fan-out of set("A", mmPair) evicts the just-written primary
binding, so get("A") immediately afterwards (TTL not elapsed) does not
return the metadata. -/
theorem claim_C7_counterexample :
    (mcGet (mcSet cacheTiny "A" mmPair 0) "A" 0).fst ≠ some mmPair := by
  intro h
  have h0 : (mcGet (mcSet cacheTiny "A" mmPair 0) "A" 0).fst = none := rfl
  rw [h0] at h
  exact Option.noConfusion h

/-- Claim C7 as amended: (1) after set(A, m) whose writes all fit below
capacity (initial size + 1 + number of companions at most maxSize), get(A)
and get(B) for any non-empty companion B listed by m return m as long as
the TTL has not elapsed; (2) under distinct cache keys, once the TTL of
the set has elapsed, get(A) returns absent even without explicit eviction;
(3) capacity eviction removes the least-recently-accessed entry, recency
being refreshed by successful get, and not the most recently inserted one:
in a 2-capacity cache holding A then B, after a get(A) refresh, inserting
C evicts B and keeps A and C. -/
theorem claim_C7_market_cache (c : MarketCacheState) (A B : String)
    (m : MarketMetadata) (now now' t2 : ℤ)
    (hcap : c.entries.length + 1 + m.clobTokenIds.length ≤ c.maxSize)
    (hnd : (c.entries.map Prod.fst).Nodup)
    (hB : B ∈ m.clobTokenIds) (hBe : B ≠ "")
    (hfr : ¬ now + c.ttlMs < now')
    (hst : now + c.ttlMs < t2) :
    (mcGet (mcSet c A m now) A now').fst = some m ∧
    (mcGet (mcSet c A m now) B now').fst = some m ∧
    (mcGet (mcSet c A m now) A t2).fst = none ∧
    (mcGet cacheScn2 "A" 1).fst = some mmA ∧
    (mcGet cacheScn4 "B" 3).fst = none ∧
    (mcGet cacheScn4 "A" 3).fst = some mmA ∧
    (mcGet cacheScn4 "C" 3).fst = some mmC := by
  refine ⟨?_, ?_, ?_, rfl, rfl, rfl, rfl⟩
  · exact mcGet_fst_some (mcSet_primary_find c A m now hcap) hfr
  · by_cases hBA : B = A
    · subst hBA
      exact mcGet_fst_some (mcSet_primary_find c B m now hcap) hfr
    · exact mcGet_fst_some (mcSet_companion_find c A B m now hcap hB hBe hBA) hfr
  · rcases mcSet_primary_stale c A m now hnd with h | h
    · exact mcGet_fst_none_of_absent h
    · exact mcGet_fst_none_of_stale h hst

/-- Claim C7 witness: the amended theorem applied to the empty 2-capacity
cache, primary key A with companion B from mmPair, set at time 0, fresh
query at time 100, stale query at time 1000000. -/
theorem claim_C7_market_cache_witness :
    (mcGet (mcSet cacheScn0 "A" mmPair 0) "A" 100).fst = some mmPair ∧
    (mcGet (mcSet cacheScn0 "A" mmPair 0) "B" 100).fst = some mmPair ∧
    (mcGet (mcSet cacheScn0 "A" mmPair 0) "A" 1000000).fst = none ∧
    (mcGet cacheScn2 "A" 1).fst = some mmA ∧
    (mcGet cacheScn4 "B" 3).fst = none ∧
    (mcGet cacheScn4 "A" 3).fst = some mmA ∧
    (mcGet cacheScn4 "C" 3).fst = some mmC :=
  claim_C7_market_cache cacheScn0 "A" "B" mmPair 0 100 1000000
    (by decide) (by decide) (by decide) (by decide) (by decide) (by decide)

/-- Model of the JS Array.indexOf used by buildResolvedMarket: the index
of the first occurrence, or -1 when absent. -/
def jsIndexOf : List String → String → ℤ
  | [], _ => -1
  | a :: rest, x =>
    if a = x then 0
    else if jsIndexOf rest x < 0 then -1 else jsIndexOf rest x + 1

/-- Model of ResolvedMarket from normalizer/types.ts. -/
structure ResolvedMarket where
  metadata : MarketMetadata
  outcome : String
  outcomeIndex : ℤ
  tokenId : String
deriving DecidableEq

/-- Model of the private MarketResolver.buildResolvedMarket: the queried
token id is located in the metadata's CLOB token-id list; a valid index
selects the corresponding outcome name, otherwise the outcome falls back
to Unknown; the reported index is clamped below at 0 (Math.max). -/
def buildResolvedMarket (metadata : MarketMetadata) (tokenId : String) : ResolvedMarket :=
  { metadata := metadata
    outcome :=
      if 0 ≤ jsIndexOf metadata.clobTokenIds tokenId ∧
          jsIndexOf metadata.clobTokenIds tokenId < (metadata.outcomes.length : ℤ) then
        metadata.outcomes.getD (jsIndexOf metadata.clobTokenIds tokenId).toNat ""
      else "Unknown"
    outcomeIndex := max (jsIndexOf metadata.clobTokenIds tokenId) 0
    tokenId := tokenId }

/-- Model of MarketResolver.resolve.  The network fetch (including its
Retry wrapping, JSON decoding with per-array fallback to empty, and the
catch-all that converts any transport or parse failure into null) is
abstracted as the Option-valued argument fetchResult: none is a lookup
that returned no rows or failed; the embedding is a total function, so no
exception escapes the boundary.  The collateral sentinel is rejected
first; a cache hit short-circuits the fetch; a successful fetch is written
back into the cache before the result is returned. -/
def resolve (cache : MarketCacheState) (fetchResult : Option MarketMetadata)
    (tokenId : String) (now : ℤ) : Option ResolvedMarket × MarketCacheState :=
  if tokenId = "0" then (none, cache)
  else
    match mcGet cache tokenId now with
    | (some cached, cache') => (some (buildResolvedMarket cached tokenId), cache')
    | (none, cache') =>
      match fetchResult with
      | none => (none, cache')
      | some metadata =>
        (some (buildResolvedMarket metadata tokenId), mcSet cache' tokenId metadata now)

/-- Absent tokens index to -1. -/
theorem jsIndexOf_eq_neg_one_of_not_mem {l : List String} {x : String}
    (h : x ∉ l) : jsIndexOf l x = -1 := by
  induction l with
  | nil => rfl
  | cons a rest ih =>
    simp only [List.mem_cons] at h
    push_neg at h
    simp only [jsIndexOf]
    rw [if_neg (Ne.symm h.1), ih h.2]
    norm_num

/-- Claim C6: resolve of the collateral sentinel "0" is always absent; on
a cache miss, a lookup that returns no rows or fails (fetchResult none,
covering transport and parse failures, which the source converts to null
rather than throwing past this boundary) resolves to absent; and whenever
the token-to-outcome index lookup fails for the queried token id, the
resolved market's outcome is "Unknown" and its outcome index is 0. -/
theorem claim_C6_resolver (cache : MarketCacheState)
    (fetchResult : Option MarketMetadata) (tokenId : String) (now : ℤ)
    (metadata : MarketMetadata)
    (hne : tokenId ≠ "0")
    (hmiss : (mcGet cache tokenId now).fst = none)
    (hnotin : tokenId ∉ metadata.clobTokenIds) :
    (resolve cache fetchResult "0" now).fst = none ∧
    (resolve cache none tokenId now).fst = none ∧
    (buildResolvedMarket metadata tokenId).outcome = "Unknown" ∧
    (buildResolvedMarket metadata tokenId).outcomeIndex = 0 := by
  have hidx := jsIndexOf_eq_neg_one_of_not_mem hnotin
  refine ⟨?_, ?_, ?_, ?_⟩
  · simp [resolve]
  · rcases hg : mcGet cache tokenId now with ⟨f, s⟩
    rw [hg] at hmiss
    simp only at hmiss
    subst hmiss
    simp [resolve, hne, hg]
  · simp only [buildResolvedMarket, hidx]
    norm_num
  · simp only [buildResolvedMarket, hidx]
    norm_num

/-- Claim C6 witness: applied to the empty cache, a failed fetch, the
token id "7", and metadata that does not list "7". -/
theorem claim_C6_resolver_witness :
    (resolve cacheScn0 none "0" 0).fst = none ∧
    (resolve cacheScn0 none "7" 0).fst = none ∧
    (buildResolvedMarket mmPair "7").outcome = "Unknown" ∧
    (buildResolvedMarket mmPair "7").outcomeIndex = 0 :=
  claim_C6_resolver cacheScn0 none "7" 0 mmPair
    (by decide) rfl (by decide)

/-- Model of the Data API PositionResponse from position-tracker.ts. -/
structure PositionResponse where
  proxyWallet : String
  asset : String
  conditionId : String
  size : ℚ
  avgPrice : ℚ
  initialValue : ℚ
  currentValue : ℚ
  cashPnl : ℚ
  percentPnl : ℚ
  totalBought : ℚ
  realizedPnl : ℚ
  curPrice : ℚ
  outcome : String
  outcomeIndex : ℤ
  title : String
  endDate : String
deriving DecidableEq

/-- Model of ExpertPosition from normalizer/types.ts. -/
structure ExpertPosition where
  positionBefore : ℚ
  positionAfter : ℚ
deriving DecidableEq

/-- Default position returned when the API call fails. -/
def UNKNOWN_POSITION : ExpertPosition := { positionBefore := 0, positionAfter := 0 }

/-- The post-settlement size reported by the endpoint for the requested
outcome: the size of the first row matching the outcome index, or 0 when
no row matches (the positionAfter local of the source). -/
def apiPositionAfter (positions : List PositionResponse) (outcomeIndex : ℤ) : ℚ :=
  match positions.find? (fun p => p.outcomeIndex == outcomeIndex) with
  | some p => p.size
  | none => 0

/-- Model of fetchExpertPosition from position-tracker.ts.  The network
call (URL construction from expertAddress and conditionId, Retry wrapping,
timeout) is abstracted as the Option-valued fetchResult: none is any fetch
failure, caught by the source's try/catch and turned into the zero
defaults without raising. -/
def fetchExpertPosition (expertAddress conditionId : String)
    (fetchResult : Option (List PositionResponse)) (outcomeIndex : ℤ)
    (side : Side) (quantity : ℚ) : ExpertPosition :=
  match fetchResult with
  | none => UNKNOWN_POSITION
  | some positions =>
    { positionBefore := roundTo6 (if side = Side.BUY then
        max 0 (apiPositionAfter positions outcomeIndex - quantity)
      else apiPositionAfter positions outcomeIndex + quantity)
      positionAfter := roundTo6 (apiPositionAfter positions outcomeIndex) }

/-- Values that are an integer number of millionths: all human-scaled
sizes and quantities in this pipeline have this shape (the decoder rounds
quantities to 6 decimals and the API reports 6-decimal sizes). -/
def isSixDp (q : ℚ) : Prop := ∃ n : ℤ, q = (n : ℚ) / 1000000

/-- Rounding to 6 decimals is the identity on 6-decimal values. -/
theorem roundTo6_eq_self_of_sixDp {q : ℚ} (h : isSixDp q) : roundTo6 q = q := by
  obtain ⟨n, rfl⟩ := h
  exact roundTo6_sixDp n

/-- Differences of 6-decimal values are 6-decimal. -/
theorem isSixDp_sub {a b : ℚ} (ha : isSixDp a) (hb : isSixDp b) : isSixDp (a - b) := by
  obtain ⟨n, rfl⟩ := ha
  obtain ⟨m, rfl⟩ := hb
  exact ⟨n - m, by push_cast; ring⟩

/-- Sums of 6-decimal values are 6-decimal. -/
theorem isSixDp_add {a b : ℚ} (ha : isSixDp a) (hb : isSixDp b) : isSixDp (a + b) := by
  obtain ⟨n, rfl⟩ := ha
  obtain ⟨m, rfl⟩ := hb
  exact ⟨n + m, by push_cast; ring⟩

/-- Clamping a 6-decimal value below at zero keeps it 6-decimal. -/
theorem isSixDp_max_zero {a : ℚ} (ha : isSixDp a) : isSixDp (max 0 a) := by
  obtain ⟨n, rfl⟩ := ha
  rcases le_or_lt 0 n with h | h
  · have hpos : (0 : ℚ) ≤ (n : ℚ) / 1000000 := by
      apply div_nonneg
      · exact_mod_cast h
      · norm_num
    exact ⟨n, by rw [max_eq_right hpos]⟩
  · have hneg : (n : ℚ) / 1000000 ≤ 0 := by
      apply div_nonpos_of_nonpos_of_nonneg
      · exact_mod_cast h.le
      · norm_num
    exact ⟨0, by rw [max_eq_left hneg]; norm_num⟩

/-- Claim C8: fetchExpertPosition derives the before-position by reversing
the trade from the post-settlement size of the matching row: before is
max(0, after - quantity) for a BUY and after + quantity for a SELL, where
after is 0 when no row matches the requested outcome index; and any fetch
failure returns the zero defaults without raising (the embedding is a
total function).  The 6-decimal hypotheses reflect the pipeline's values
(decoder-rounded quantities, 6-decimal API sizes), on which the source's
final rounding is the identity. -/
theorem claim_C8_position_tracker (addr cid : String)
    (positions : List PositionResponse) (i : ℤ) (q : ℚ)
    (hq : isSixDp q) (hafter : isSixDp (apiPositionAfter positions i)) :
    fetchExpertPosition addr cid none i Side.BUY q = UNKNOWN_POSITION ∧
    fetchExpertPosition addr cid none i Side.SELL q = UNKNOWN_POSITION ∧
    fetchExpertPosition addr cid (some positions) i Side.BUY q =
      { positionBefore := max 0 (apiPositionAfter positions i - q),
        positionAfter := apiPositionAfter positions i } ∧
    fetchExpertPosition addr cid (some positions) i Side.SELL q =
      { positionBefore := apiPositionAfter positions i + q,
        positionAfter := apiPositionAfter positions i } ∧
    ((∀ p ∈ positions, p.outcomeIndex ≠ i) → apiPositionAfter positions i = 0) := by
  refine ⟨rfl, rfl, ?_, ?_, ?_⟩
  · simp only [fetchExpertPosition, if_true]
    rw [roundTo6_eq_self_of_sixDp (isSixDp_max_zero (isSixDp_sub hafter hq)),
      roundTo6_eq_self_of_sixDp hafter]
  · simp only [fetchExpertPosition]
    rw [if_neg (by simp : ¬ (Side.SELL = Side.BUY)),
      roundTo6_eq_self_of_sixDp (isSixDp_add hafter hq),
      roundTo6_eq_self_of_sixDp hafter]
  · intro h
    have hfind : positions.find? (fun p => p.outcomeIndex == i) = none := by
      apply List.find?_eq_none.mpr
      intro x hx
      simpa using h x hx
    simp only [apiPositionAfter, hfind]

/-- Concrete Data API row: post-settlement size 101 at outcome index 0. -/
def wPosRow : PositionResponse :=
  { proxyWallet := "w", asset := "a", conditionId := "c", size := 101, avgPrice := 0,
    initialValue := 0, currentValue := 0, cashPnl := 0, percentPnl := 0,
    totalBought := 0, realizedPnl := 0, curPrice := 0, outcome := "Yes",
    outcomeIndex := 0, title := "t", endDate := "e" }

/-- Claim C8 witness: the theorem applied to the single concrete row with
size 101 at index 0 and trade quantity 1. -/
theorem claim_C8_position_tracker_witness :
    fetchExpertPosition "0xex" "c" none 0 Side.BUY 1 = UNKNOWN_POSITION ∧
    fetchExpertPosition "0xex" "c" none 0 Side.SELL 1 = UNKNOWN_POSITION ∧
    fetchExpertPosition "0xex" "c" (some [wPosRow]) 0 Side.BUY 1 =
      { positionBefore := max 0 (apiPositionAfter [wPosRow] 0 - 1),
        positionAfter := apiPositionAfter [wPosRow] 0 } ∧
    fetchExpertPosition "0xex" "c" (some [wPosRow]) 0 Side.SELL 1 =
      { positionBefore := apiPositionAfter [wPosRow] 0 + 1,
        positionAfter := apiPositionAfter [wPosRow] 0 } ∧
    ((∀ p ∈ [wPosRow], p.outcomeIndex ≠ 0) → apiPositionAfter [wPosRow] 0 = 0) :=
  claim_C8_position_tracker "0xex" "c" [wPosRow] 0 1
    ⟨1000000, by norm_num⟩
    ⟨101000000, by rw [show apiPositionAfter [wPosRow] 0 = 101 from rfl]; norm_num⟩

/-- Model of LiquiditySnapshot from normalizer/types.ts: every field
independently nullable. -/
structure LiquiditySnapshot where
  bestBid : Option ℚ
  bestAsk : Option ℚ
  bidDepthUsdc : Option ℚ
  askDepthUsdc : Option ℚ
  spread : Option ℚ
  midpoint : Option ℚ
deriving DecidableEq

/-- Model of EMPTY_SNAPSHOT from liquidity-fetcher.ts. -/
def EMPTY_SNAPSHOT : LiquiditySnapshot :=
  { bestBid := none, bestAsk := none, bidDepthUsdc := none, askDepthUsdc := none,
    spread := none, midpoint := none }

/-- The success and error counters of a SignalNormalizer. -/
structure NormCounters where
  normalized : ℕ
  errors : ℕ
deriving DecidableEq

/-- Record of an enrichment service invocation made by normalize, used to
observe which downstream fetches a normalization issued. -/
inductive EnrichmentCall
  | liquidityFetch (tokenId : String)
  | positionFetch (expertAddress conditionId : String) (outcomeIndex : ℤ)
      (side : Side) (quantity : ℚ)
deriving DecidableEq

/-- Model of NormalizedTrade from normalizer/types.ts. -/
structure NormalizedTrade where
  expertTradeId : String
  txHash : String
  timestamp : ℤ
  detectedAt : ℤ
  marketId : String
  marketQuestion : String
  outcome : String
  side : Side
  quantity : ℚ
  price : ℚ
  impliedProbability : ℚ
  marketPhase : MarketPhase
  liquiditySnapshot : LiquiditySnapshot
  expertPositionBefore : ℚ
  expertPositionAfter : ℚ
  normalizationLatencyMs : ℤ
  raw : RawTradeEvent
deriving DecidableEq

/-- Model of SignalNormalizer.normalize from signal-normalizer.ts.  The
market resolver and the two enrichment services are oracle arguments (the
resolver's cache threading is folded into the oracle); nowMs feeds the
market-phase computation and startMs/endMs the latency measurement.  The
returned triple carries the result, the updated counters, and the list of
enrichment calls issued (liquidity and position run concurrently in the
source; the list records that both were invoked).  The embedding is a
total function: nothing is raised past the boundary, matching the
source's catch-all. -/
def normalize (resolver : String → Option ResolvedMarket)
    (liquidity : String → LiquiditySnapshot)
    (position : String → String → ℤ → Side → ℚ → ExpertPosition)
    (expertAddress : String) (nowMs startMs endMs : ℤ)
    (raw : RawTradeEvent) (counters : NormCounters) :
    Option NormalizedTrade × NormCounters × List EnrichmentCall :=
  let decoded := decodeTrade raw
  match resolver decoded.outcomeTokenId with
  | none => (none, { counters with errors := counters.errors + 1 }, [])
  | some resolved =>
    let marketPhase := computeMarketPhase resolved.metadata.endDate nowMs
    let liquiditySnapshot := liquidity decoded.outcomeTokenId
    let pos := position expertAddress resolved.metadata.conditionId
      resolved.outcomeIndex decoded.side decoded.quantity
    (some { expertTradeId := raw.id, txHash := raw.txHash,
            timestamp := raw.blockTimestamp, detectedAt := raw.detectedAt,
            marketId := resolved.metadata.conditionId,
            marketQuestion := resolved.metadata.question,
            outcome := resolved.outcome, side := decoded.side,
            quantity := decoded.quantity, price := decoded.price,
            impliedProbability := decoded.impliedProbability,
            marketPhase := marketPhase, liquiditySnapshot := liquiditySnapshot,
            expertPositionBefore := pos.positionBefore,
            expertPositionAfter := pos.positionAfter,
            normalizationLatencyMs := endMs - startMs, raw := raw },
     { counters with normalized := counters.normalized + 1 },
     [EnrichmentCall.liquidityFetch decoded.outcomeTokenId,
      EnrichmentCall.positionFetch expertAddress resolved.metadata.conditionId
        resolved.outcomeIndex decoded.side decoded.quantity])

/-- Claim C9: when market resolution fails for a detection, normalize
returns absent, increments the error counter by exactly one, leaves the
success counter unchanged, and issues no liquidity or position fetch for
that detection; the embedding is a total function, so nothing is raised
past the boundary. -/
theorem claim_C9_normalize_short_circuit
    (resolver : String → Option ResolvedMarket)
    (liquidity : String → LiquiditySnapshot)
    (position : String → String → ℤ → Side → ℚ → ExpertPosition)
    (expertAddress : String) (nowMs startMs endMs : ℤ)
    (raw : RawTradeEvent) (counters : NormCounters)
    (h : resolver (decodeTrade raw).outcomeTokenId = none) :
    normalize resolver liquidity position expertAddress nowMs startMs endMs
        raw counters =
      (none, { counters with errors := counters.errors + 1 },
        ([] : List EnrichmentCall)) := by
  simp only [normalize, h]

/-- Claim C9 witness: the theorem applied to an always-failing resolver,
the worked BUY detection, and counters (5, 7), yielding counters (5, 8)
and no enrichment calls. -/
theorem claim_C9_normalize_short_circuit_witness :
    normalize (fun _ => none) (fun _ => EMPTY_SNAPSHOT)
        (fun _ _ _ _ _ => UNKNOWN_POSITION) "0xex" 0 0 25 exBuyMaker
        { normalized := 5, errors := 7 } =
      (none, { normalized := 5, errors := 8 }, ([] : List EnrichmentCall)) :=
  claim_C9_normalize_short_circuit (fun _ => none) (fun _ => EMPTY_SNAPSHOT)
    (fun _ _ _ _ _ => UNKNOWN_POSITION) "0xex" 0 0 25 exBuyMaker
    { normalized := 5, errors := 7 } rfl

end Polytera
